import Mathlib

/-!
Verification of the document ingestion, chunked index storage and hybrid
retrieval subsystem of the test_case_bot repository.

The Python source (backend/mongo_db.py, backend/document_processor.py,
backend/information_retrieval.py, backend/test_case_generation.py) is
shallowly embedded below.  Pure computations become Lean functions, the
MongoDB collections become explicit lists of records threaded through the
operations, the filesystem becomes a list of paths, and external
collaborators (pdfplumber word extraction, tiktoken token counting, the
embedding service, FAISS serialization) are parameters of the embedded
functions.  Python floats used only for layout-coordinate comparisons are
modelled as integers; byte blobs are lists of naturals.
-/

/-! ### Models of the Python string primitives used by the source

Python `str.strip`, `str.lower`, `str.isdigit`, `str.split()`, `in`
(substring test) and `str.isupper` are modelled on the character list of
the string (ASCII-level semantics, which is what the source relies on). -/

/-- Python `text.strip()`: remove leading and trailing whitespace. -/
def pyStrip (s : String) : String :=
  ⟨((s.data.dropWhile Char.isWhitespace).reverse.dropWhile Char.isWhitespace).reverse⟩

/-- Python `text.lower()`. -/
def pyLower (s : String) : String :=
  ⟨s.data.map Char.toLower⟩

/-- Python `text.isdigit()`: non-empty and every character a digit. -/
def pyIsDigitStr (s : String) : Bool :=
  !s.data.isEmpty && s.data.all Char.isDigit

/-- Python `text.split()`: split on whitespace runs, discarding empties. -/
def pyWords (s : String) : List String :=
  ((List.splitOnP Char.isWhitespace s.data).filter (fun w => !w.isEmpty)).map
    (fun w => (⟨w⟩ : String))

/-- Python `sub in s`: substring containment. -/
def pyContains (sub s : String) : Bool :=
  s.data.tails.any (fun t => sub.data.isPrefixOf t)

/-- Python `text.isupper()`: at least one cased character and no lowercase
cased character (ASCII model: cased = alphabetic). -/
def pyIsUpper (s : String) : Bool :=
  s.data.any Char.isAlpha && s.data.all (fun c => !c.isLower)

/-! ### Decimal rendering of naturals

Models Python `f"{base_doctype}{max_num + 1}"`, i.e. `str` on a natural
number.  A fuel-based structural recursion is used so that concrete
instances reduce in the kernel. -/

/-- The decimal digit character for `n % 10`-style values below ten. -/
def digitChar (n : Nat) : Char :=
  match n with
  | 0 => '0' | 1 => '1' | 2 => '2' | 3 => '3' | 4 => '4'
  | 5 => '5' | 6 => '6' | 7 => '7' | 8 => '8' | _ => '9'

/-- Numeric value of a digit character. -/
def charDigitVal (c : Char) : Nat := c.toNat - 48

/-- Numeric value of a digit string, most significant digit first.
Models Python `int(...)` on a digit string. -/
def digitsVal (cs : List Char) : Nat :=
  cs.foldl (fun a c => 10 * a + charDigitVal c) 0

/-- Decimal digits of `n`, given enough fuel (`n < fuel`). -/
def natDecAux : Nat → Nat → List Char
  | 0, _ => []
  | fuel + 1, n =>
    if n < 10 then [digitChar n]
    else natDecAux fuel (n / 10) ++ [digitChar (n % 10)]

/-- Decimal digits of `n` (Python `str(n)` for a natural `n`). -/
def natDec (n : Nat) : List Char := natDecAux (n + 1) n

/-- Python `str(n)` as a `String`. -/
def natToString (n : Nat) : String := ⟨natDec n⟩

theorem digitChar_isDigit (n : Nat) : (digitChar n).isDigit = true := by
  unfold digitChar
  split <;> decide

theorem charDigitVal_digitChar : ∀ n < 10, charDigitVal (digitChar n) = n := by
  decide

theorem digitsVal_append (xs ys : List Char) :
    digitsVal (xs ++ ys) = digitsVal xs * 10 ^ ys.length + digitsVal ys := by
  have key : ∀ (l : List Char) (a : Nat),
      l.foldl (fun a c => 10 * a + charDigitVal c) a
        = a * 10 ^ l.length + digitsVal l := by
    intro l
    induction l with
    | nil => intro a; simp [digitsVal]
    | cons c l ih =>
      intro a
      simp only [List.foldl_cons, List.length_cons, digitsVal] at *
      rw [ih (10 * a + charDigitVal c), ih (10 * 0 + charDigitVal c)]
      ring
  unfold digitsVal
  rw [List.foldl_append]
  exact key ys _

theorem natDecAux_spec : ∀ (fuel n : Nat), n < fuel →
    digitsVal (natDecAux fuel n) = n
      ∧ natDecAux fuel n ≠ []
      ∧ ∀ c ∈ natDecAux fuel n, c.isDigit = true := by
  intro fuel
  induction fuel with
  | zero => intro n h; omega
  | succ fuel ih =>
    intro n h
    unfold natDecAux
    by_cases h10 : n < 10
    · simp only [if_pos h10]
      refine ⟨?_, by simp, ?_⟩
      · simpa [digitsVal] using charDigitVal_digitChar n h10
      · intro c hc
        simp only [List.mem_singleton] at hc
        subst hc
        exact digitChar_isDigit n
    · simp only [if_neg h10]
      have hdiv : n / 10 < fuel := by
        have h1 : n / 10 < n := Nat.div_lt_self (by omega) (by omega)
        omega
      obtain ⟨hval, hne, hdig⟩ := ih (n / 10) hdiv
      refine ⟨?_, by simp, ?_⟩
      · rw [digitsVal_append, hval]
        have hm : n % 10 < 10 := Nat.mod_lt _ (by omega)
        simp [digitsVal, charDigitVal_digitChar _ hm]
        omega
      · intro c hc
        rcases List.mem_append.mp hc with h1 | h1
        · exact hdig c h1
        · simp only [List.mem_singleton] at h1
          subst h1
          exact digitChar_isDigit _

theorem digitsVal_natDec (n : Nat) : digitsVal (natDec n) = n :=
  (natDecAux_spec (n + 1) n (by omega)).1

theorem natDec_ne_nil (n : Nat) : natDec n ≠ [] :=
  (natDecAux_spec (n + 1) n (by omega)).2.1

theorem natDec_all_digits (n : Nat) : ∀ c ∈ natDec n, c.isDigit = true :=
  (natDecAux_spec (n + 1) n (by omega)).2.2

/-! ### Chunking

`chunksOf` models the Python slicing comprehension
`[lst[i:i+size] for i in range(0, len(lst), size)]`, which appears twice in
mongo_db.py: once to split a serialized FAISS index into storage chunks
(`update_vector_index`) and once to split the document list into embedding
batches (`process_documents_parallel`). -/

/-- `[lst[i:i+size] for i in range(0, len(lst), size)]` for `size > 0`:
the list of start offsets is `range(0, len, size)`, and each slice takes at
most `size` elements. -/
def chunksOf (size : Nat) (l : List α) : List (List α) :=
  (List.range ((l.length + size - 1) / size)).map
    (fun i => (l.drop (i * size)).take size)

theorem chunksOf_nil (size : Nat) : chunksOf size ([] : List α) = [] := by
  unfold chunksOf
  have h0 : (size - 1) / size = 0 := by
    rcases Nat.eq_zero_or_pos size with h | h
    · subst h; rfl
    · exact Nat.div_eq_of_lt (by omega)
  simp [h0]

theorem chunksOf_cons (size : Nat) (hs : 0 < size) (l : List α) (hl : l ≠ []) :
    chunksOf size l = l.take size :: chunksOf size (l.drop size) := by
  unfold chunksOf
  have hlen : 0 < l.length := List.length_pos.mpr hl
  have h1 : (l.length + size - 1) / size = (l.length - 1) / size + 1 := by
    have : l.length + size - 1 = (l.length - 1) + size := by omega
    rw [this, Nat.add_div_right _ hs]
  have h2 : ((l.drop size).length + size - 1) / size = (l.length - 1) / size := by
    rw [List.length_drop]
    by_cases hc : size ≤ l.length
    · congr 1
      omega
    · have hz : l.length - size = 0 := by omega
      rw [hz]
      have : (0 + size - 1) / size = 0 := Nat.div_eq_of_lt (by omega)
      rw [this]
      exact (Nat.div_eq_of_lt (by omega)).symm
  rw [h1, h2, List.range_succ_eq_map]
  simp only [List.map_cons, Nat.zero_mul, List.drop_zero, List.map_map]
  congr 1
  apply List.map_congr_left
  intro i _
  simp only [Function.comp_apply, Nat.succ_eq_add_one]
  rw [List.drop_drop]
  congr 1
  ring

theorem chunksOf_flatten (size : Nat) (hs : 0 < size) (l : List α) :
    (chunksOf size l).flatten = l := by
  have H : ∀ (n : Nat) (l : List α), l.length = n → (chunksOf size l).flatten = l := by
    intro n
    induction n using Nat.strong_induction_on with
    | _ n ih =>
      intro l hn
      rcases eq_or_ne l [] with rfl | hl
      · simp [chunksOf_nil]
      · rw [chunksOf_cons size hs l hl]
        have hlen : 0 < l.length := List.length_pos.mpr hl
        have hd : (l.drop size).length < n := by
          rw [List.length_drop]; omega
        rw [List.flatten_cons, ih _ hd _ rfl]
        exact List.take_append_drop size l
  exact H l.length l rfl

theorem chunksOf_mem_length_le (size : Nat) (l : List α) :
    ∀ c ∈ chunksOf size l, c.length ≤ size := by
  intro c hc
  unfold chunksOf at hc
  rcases List.mem_map.mp hc with ⟨i, _, rfl⟩
  exact List.length_take_le size _

theorem chunksOf_dropLast_length (size : Nat) (hs : 0 < size) (l : List α) :
    ∀ c ∈ (chunksOf size l).dropLast, c.length = size := by
  have H : ∀ (n : Nat) (l : List α), l.length = n →
      ∀ c ∈ (chunksOf size l).dropLast, c.length = size := by
    intro n
    induction n using Nat.strong_induction_on with
    | _ n ih =>
      intro l hn c hc
      rcases eq_or_ne l [] with rfl | hl
      · rw [chunksOf_nil] at hc
        simp at hc
      · rw [chunksOf_cons size hs l hl] at hc
        have hlen : 0 < l.length := List.length_pos.mpr hl
        rcases eq_or_ne (chunksOf size (l.drop size)) [] with hnil | hne
        · rw [hnil] at hc
          simp at hc
        · rw [List.dropLast_cons_of_ne_nil hne] at hc
          rcases List.mem_cons.mp hc with rfl | hc2
          · -- the head chunk: the tail is non-empty, so `l.length > size`
            have hdne : l.drop size ≠ [] := by
              intro hdrop
              rw [hdrop, chunksOf_nil] at hne
              exact hne rfl
            have : size < l.length := by
              by_contra hcon
              exact hdne (List.drop_eq_nil_of_le (by omega))
            rw [List.length_take]
            omega
          · have hd : (l.drop size).length < n := by
              rw [List.length_drop]; omega
            exact ih _ hd _ rfl c hc2
  exact H l.length l rfl

theorem chunksOf_mem_ne_nil (size : Nat) (hs : 0 < size) (l : List α) :
    ∀ c ∈ chunksOf size l, c ≠ [] := by
  have H : ∀ (n : Nat) (l : List α), l.length = n →
      ∀ c ∈ chunksOf size l, c ≠ [] := by
    intro n
    induction n using Nat.strong_induction_on with
    | _ n ih =>
      intro l hn c hc
      rcases eq_or_ne l [] with rfl | hl
      · rw [chunksOf_nil] at hc
        simp at hc
      · rw [chunksOf_cons size hs l hl] at hc
        have hlen : 0 < l.length := List.length_pos.mpr hl
        rcases List.mem_cons.mp hc with rfl | hc2
        · intro htake
          have hlen2 : (l.take size).length = 0 := by rw [htake]; rfl
          rw [List.length_take] at hlen2
          omega
        · have hd : (l.drop size).length < n := by
            rw [List.length_drop]; omega
          exact ih _ hd _ rfl c hc2
  exact H l.length l rfl

/-! ### Data model: document records and content elements

`DocumentRecord` rows of the `documents` collection (mongo_db.py,
`upload_file_to_mongodb`), and the tagged content elements produced by the
extractor (document_processor.py). -/

/-- A content element of a page: a text paragraph (with its heading flag)
or a table (rows of string-coerced cells, with an associated feature
label). -/
inductive ContentElement where
  | text (content : String) (is_heading : Bool) : ContentElement
  | table (content : List (List String)) (feature : String) : ContentElement
deriving DecidableEq

/-- A row of the `documents` collection, as inserted by
`upload_file_to_mongodb` (mongo_db.py lines 359-367).  The `upload_date`
timestamp is environment-supplied and irrelevant to every claim, so it is
omitted from the record. -/
structure DocRec where
  title : String
  name : String
  page_no : Nat
  content : List ContentElement
  doc_type : String
  original_filename : String
deriving DecidableEq

/-- One page of parser output (`extract_pdf_content` / `process_docx` /
`process_doc` / `process_excel` item): `page_no`, `content`, and the
optional `original_filename` key read by `item.get("original_filename", ...)`. -/
structure PageContent where
  page_no : Nat
  content : List ContentElement
  original_filename : Option String
deriving DecidableEq

/-! ### Doctype versioning (`MongoDBHandler._get_next_available_doctype`) -/

/-- The regex `^{base_doctype}\d*$`: the string is `base` followed by zero
or more decimal digits. -/
def matchesDoctypeRegex (base : String) (s : String) : Bool :=
  base.data.isPrefixOf s.data && (s.data.drop base.data.length).all Char.isDigit

/-- The trailing digit run of a string, i.e. what `re.search(r'(\d+)$', s)`
captures (empty when that regex does not match). -/
def trailingDigits (s : String) : List Char :=
  (s.data.reverse.takeWhile Char.isDigit).reverse

/-- The number the versioning loop assigns to one existing doctype:
`1` for the bare base, else the value of the trailing digit run
(`0` when there is none).  Mirrors mongo_db.py lines 92-97. -/
def doctypeNum (base : String) (s : String) : Nat :=
  if s = base then 1
  else if trailingDigits s = [] then 0
  else digitsVal (trailingDigits s)

/-- `MongoDBHandler._get_next_available_doctype` (mongo_db.py lines 58-102).
`db` stands for the `documents` collection; the Mongo query
`{"title": title, "doc_type": {"$regex": f"^{base_doctype}\d*$"}}` becomes a
filter.  The Python set `existing_doctypes` is modelled by the projected
list itself: the only operations performed on it are a membership test and
a running maximum, both insensitive to duplicates. -/
def getNextAvailableDoctype (db : List DocRec) (title base_doctype : String) : String :=
  let existing_doctypes :=
    (db.filter (fun d => d.title == title && matchesDoctypeRegex base_doctype d.doc_type)).map
      (fun d => d.doc_type)
  if !existing_doctypes.contains base_doctype then base_doctype
  else
    let max_num := existing_doctypes.foldl (fun m s => max m (doctypeNum base_doctype s)) 0
    base_doctype ++ natToString (max_num + 1)

/-! ### Upload (`MongoDBHandler.upload_file_to_mongodb`)

The MongoDB `documents` collection is the list `db`, the filesystem is the
list `fs` of existing paths, and the four parser methods (external
file-format collaborators dispatched on the extension) are modelled by the
single oracle argument `parsed`: `.error e` is a parser exception (caught
by the inner `except`), `.ok pages` its return value.  `os.path.basename`
is the identity on the supplied `file_path` (path syntax is outside the
model), and the `title` defaulting branch (`title or stem(file_path)`) is
resolved by the caller, so `title` is taken as given. -/

/-- Result of an upload: the returned boolean, the new `documents`
collection, and the new filesystem. -/
structure UploadResult where
  ok : Bool
  db : List DocRec
  fs : List String
deriving DecidableEq

/-- `os.remove(file_path)` guarded by `os.path.exists` (mongo_db.py lines
388-390): afterwards no file exists at that path. -/
def osRemoveIfExists (fs : List String) (path : String) : List String :=
  fs.filter (fun p => p != path)

/-- The extensions accepted by the dispatch in mongo_db.py lines 336-343. -/
def supportedUploadExts : List String :=
  [".pdf", ".docx", ".doc", ".xlsx", ".xls", ".csv"]

/-- `MongoDBHandler.upload_file_to_mongodb` (mongo_db.py lines 289-392).
The vector-index refresh (`update_vector_index`) touches only the
`vector_indices` collection, which is modelled separately below. -/
def uploadFileToMongodb (db : List DocRec) (fs : List String)
    (file_path doc_type title file_ext : String)
    (parsed : Except String (List PageContent)) : UploadResult :=
  let final_doctype := getNextAvailableDoctype db title doc_type
  let ext := pyLower file_ext
  let outcome : Except String (Bool × List DocRec) :=
    if ext ∈ supportedUploadExts then
      match parsed with
      | .error e => .error e
      | .ok file_data =>
        if file_data.isEmpty then
          -- "No content extracted"
          .ok (false, db)
        else
          -- delete_many({"title": title, "doc_type": final_doctype})
          let remaining := db.filter
            (fun r => !(r.title == title && r.doc_type == final_doctype))
          -- insert_many(mongo_docs)
          let mongo_docs := file_data.map (fun item =>
            { title := title
              name := file_path
              page_no := item.page_no
              content := item.content
              doc_type := final_doctype
              original_filename := item.original_filename.getD file_path : DocRec })
          .ok (true, remaining ++ mongo_docs)
    else
      -- "Unsupported file type"
      .ok (false, db)
  match outcome with
  | .error _ => { ok := false, db := db, fs := osRemoveIfExists fs file_path }
  | .ok (b, db2) => { ok := b, db := db2, fs := osRemoveIfExists fs file_path }

/-! ### Versioning lemmas -/

theorem le_foldl_max {α : Type} (f : α → Nat) :
    ∀ (l : List α) (a : Nat), a ≤ l.foldl (fun m s => max m (f s)) a := by
  intro l
  induction l with
  | nil => intro a; exact Nat.le_refl a
  | cons x l ih =>
    intro a
    exact Nat.le_trans (Nat.le_max_left a (f x)) (ih (max a (f x)))

theorem mem_le_foldl_max {α : Type} (f : α → Nat) :
    ∀ (l : List α) (a : Nat), ∀ x ∈ l, f x ≤ l.foldl (fun m s => max m (f s)) a := by
  intro l
  induction l with
  | nil => intro a x hx; simp at hx
  | cons y l ih =>
    intro a x hx
    rcases List.mem_cons.mp hx with rfl | hx2
    · exact Nat.le_trans (Nat.le_max_right a (f x)) (le_foldl_max f l (max a (f x)))
    · exact ih (max a (f y)) x hx2

/-- The base itself matches the `^{base}\d*$` pattern. -/
theorem matchesDoctypeRegex_self (base : String) :
    matchesDoctypeRegex base base = true := by
  unfold matchesDoctypeRegex
  rw [Bool.and_eq_true]
  constructor
  · exact List.isPrefixOf_iff_prefix.mpr (List.prefix_refl _)
  · rw [List.drop_length]
    rfl

/-- `base ++ digits` matches the `^{base}\d*$` pattern when every appended
character is a digit. -/
theorem matchesDoctypeRegex_append (base : String) (ds : List Char)
    (hds : ∀ c ∈ ds, c.isDigit = true) :
    matchesDoctypeRegex base (base ++ (⟨ds⟩ : String)) = true := by
  unfold matchesDoctypeRegex
  rw [String.data_append, Bool.and_eq_true]
  constructor
  · exact List.isPrefixOf_iff_prefix.mpr (List.prefix_append _ _)
  · rw [List.drop_left]
    exact List.all_eq_true.mpr hds

/-- Appending a digit run to any string extends its trailing digit run. -/
theorem trailingDigits_append (s : String) (ds : List Char)
    (hds : ∀ c ∈ ds, c.isDigit = true) :
    trailingDigits (s ++ (⟨ds⟩ : String)) = trailingDigits s ++ ds := by
  unfold trailingDigits
  rw [String.data_append, List.reverse_append]
  have hself : ds.reverse.takeWhile Char.isDigit = ds.reverse :=
    List.takeWhile_eq_self_iff.mpr (fun c hc => hds c (List.mem_reverse.mp hc))
  rw [List.takeWhile_append, hself]
  simp

/-- The numeric value of a digit string only grows when digits are
prepended. -/
theorem digitsVal_suffix_le (xs ys : List Char) :
    digitsVal ys ≤ digitsVal (xs ++ ys) := by
  rw [digitsVal_append]
  exact Nat.le_add_left _ _

/-- Freshness: the doctype chosen by `_get_next_available_doctype` is never
one already stored for the same title.  (This is what makes the
`delete_many` in `upload_file_to_mongodb` a no-op.) -/
theorem getNextAvailableDoctype_fresh (db : List DocRec) (title base : String) :
    ∀ r ∈ db, ¬(r.title = title ∧ r.doc_type = getNextAvailableDoctype db title base) := by
  intro r hr ⟨htitle, hdoc⟩
  simp only [getNextAvailableDoctype] at hdoc
  set existing :=
    (db.filter (fun d => d.title == title && matchesDoctypeRegex base d.doc_type)).map
      (fun d => d.doc_type) with hex
  by_cases hc : existing.contains base = true
  · -- versioned branch: r.doc_type = base ++ str(max+1)
    rw [if_neg (by rw [hc]; decide)] at hdoc
    set M := existing.foldl (fun m s => max m (doctypeNum base s)) 0 with hM
    -- the chosen doctype matches the pattern, so it is in `existing`
    have hmatch : matchesDoctypeRegex base r.doc_type = true := by
      rw [hdoc]
      exact matchesDoctypeRegex_append base (natDec (M + 1)) (natDec_all_digits _)
    have hmem : r.doc_type ∈ existing := by
      rw [hex]
      apply List.mem_map.mpr
      refine ⟨r, ?_, rfl⟩
      apply List.mem_filter.mpr
      exact ⟨hr, by simp [htitle, hmatch]⟩
    have hle : doctypeNum base r.doc_type ≤ M := mem_le_foldl_max _ existing 0 _ hmem
    -- but its assigned number is at least M + 1
    have hne : r.doc_type ≠ base := by
      intro heq
      have := congrArg String.data (heq.symm.trans hdoc)
      rw [String.data_append] at this
      have hlen := congrArg List.length this
      rw [List.length_append] at hlen
      have := natDec_ne_nil (M + 1)
      have : (natToString (M + 1)).data.length ≠ 0 := by
        simp only [natToString]
        intro h0
        exact (natDec_ne_nil (M + 1)) (List.length_eq_zero.mp h0)
      omega
    have htrail : trailingDigits r.doc_type = trailingDigits base ++ natDec (M + 1) := by
      rw [hdoc]
      exact trailingDigits_append base (natDec (M + 1)) (natDec_all_digits _)
    have htne : trailingDigits r.doc_type ≠ [] := by
      rw [htrail]
      intro h0
      exact natDec_ne_nil (M + 1) (List.append_eq_nil.mp h0).2
    have hnum : doctypeNum base r.doc_type = digitsVal (trailingDigits r.doc_type) := by
      unfold doctypeNum
      rw [if_neg hne, if_neg htne]
    have hge : M + 1 ≤ doctypeNum base r.doc_type := by
      rw [hnum, htrail]
      calc M + 1 = digitsVal (natDec (M + 1)) := (digitsVal_natDec _).symm
        _ ≤ digitsVal (trailingDigits base ++ natDec (M + 1)) := digitsVal_suffix_le _ _
    omega
  · -- fresh-base branch: base itself is not yet present
    rw [Bool.not_eq_true] at hc
    rw [if_pos (by rw [hc]; decide)] at hdoc
    rw [← Bool.not_eq_true] at hc
    apply hc
    apply List.contains_iff_exists_mem_beq.mpr
    refine ⟨base, ?_, by simp⟩
    rw [hex]
    apply List.mem_map.mpr
    refine ⟨r, ?_, hdoc⟩
    apply List.mem_filter.mpr
    refine ⟨hr, ?_⟩
    rw [htitle, hdoc]
    simp [matchesDoctypeRegex_self]

/-- If some record for this title already carries the base doctype, the
chosen doctype is a strict extension of the base. -/
theorem getNextAvailableDoctype_of_base_present (db : List DocRec) (title base : String)
    (h : ∃ r ∈ db, r.title = title ∧ r.doc_type = base) :
    ∃ M : Nat, getNextAvailableDoctype db title base = base ++ natToString (M + 1) := by
  obtain ⟨r, hr, htitle, hdoc⟩ := h
  simp only [getNextAvailableDoctype]
  set existing :=
    (db.filter (fun d => d.title == title && matchesDoctypeRegex base d.doc_type)).map
      (fun d => d.doc_type) with hex
  have hc : existing.contains base := by
    apply List.contains_iff_exists_mem_beq.mpr
    refine ⟨base, ?_, by simp⟩
    rw [hex]
    apply List.mem_map.mpr
    refine ⟨r, ?_, hdoc⟩
    apply List.mem_filter.mpr
    refine ⟨hr, ?_⟩
    rw [htitle, hdoc]
    simp [matchesDoctypeRegex_self]
  rw [if_neg (by rw [hc]; decide)]
  exact ⟨_, rfl⟩

/-- Appending the non-empty decimal rendering of a number changes the
string. -/
theorem append_natToString_ne (s : String) (n : Nat) : s ++ natToString n ≠ s := by
  intro heq
  have hdata := congrArg String.data heq
  rw [String.data_append] at hdata
  have hlen := congrArg List.length hdata
  rw [List.length_append] at hlen
  have hne : (natToString n).data.length ≠ 0 := by
    intro h0
    exact natDec_ne_nil n (List.length_eq_zero.mp h0)
  omega

/-! ### Concrete inputs used for counterexamples and witnesses -/

/-- A stored page record with the given title and doctype. -/
def sampleRec (t dt : String) : DocRec :=
  { title := t, name := "doc.pdf", page_no := 1, content := [], doc_type := dt,
    original_filename := "doc.pdf" }

/-- One parsed page with a single text element. -/
def samplePage (n : Nat) : PageContent :=
  { page_no := n, content := [ContentElement.text "sample paragraph content here" false],
    original_filename := none }

/-- First upload of a 3-page file under (title "t", doc_type "spec") into an
empty store. -/
def firstUpload : UploadResult :=
  uploadFileToMongodb [] ["doc.pdf"] "doc.pdf" "spec" "t" ".pdf"
    (.ok [samplePage 1, samplePage 2, samplePage 3])

/-- Re-upload of the identical 3-page file under the same
(title "t", doc_type "spec"). -/
def secondUpload : UploadResult :=
  uploadFileToMongodb firstUpload.db ["doc.pdf"] "doc.pdf" "spec" "t" ".pdf"
    (.ok [samplePage 1, samplePage 2, samplePage 3])

/-- C2: evaluating `_get_next_available_doctype` at the failing input.
With exactly one document stored under the bare base doctype
`"test_case"`, the code returns `"test_case2"` — the loop assigns the bare
base the number 1 and adds 1 — whereas the claim (and the function's own
docstring, mongo_db.py lines 73-75) says the result is `"test_case1"`. -/
theorem getNextAvailableDoctype_after_base_is_base2 :
    getNextAvailableDoctype [sampleRec "t" "test_case"] "t" "test_case" = "test_case2" := by
  decide

/-- C1 counterexample: re-uploading an identical 3-page file under the same
(title, doc_type) = ("t", "spec") does not replace the 3 stored records.
The store grows from 3 to 6 records: the 3 old records survive unchanged
(they are the first 3 records afterwards, still under doc_type "spec") and
the 3 new records are inserted under the freshly versioned doc_type
"spec2", not "spec" — contradicting "no old records remain" and "record
count unchanged". -/
theorem upload_reupload_grows_store :
    firstUpload.db.length = 3
    ∧ secondUpload.db.length = 6
    ∧ secondUpload.db.take 3 = firstUpload.db
    ∧ firstUpload.db.all (fun r => r.doc_type == "spec") = true
    ∧ (secondUpload.db.drop 3).all (fun r => r.doc_type == "spec2") = true := by
  decide

/-- C1 (amended): on a re-upload under a (title, doc_type) pair for which
page records already exist, `upload_file_to_mongodb` does not replace those
records: it assigns a fresh versioned doctype (never equal to the requested
one), its delete-then-insert targets that fresh doctype and therefore
deletes nothing, every old record survives untouched, and the newly
extracted page records are appended under the fresh doctype — so for a
3-page file the record count grows by 3 instead of staying unchanged.
Records are never partially mutated (the store only ever changes by
whole-record delete and insert). -/
theorem uploadFileToMongodb_reupload_versions
    (db : List DocRec) (fs : List String) (file_path doc_type title : String)
    (pages : List PageContent)
    (hexists : ∃ r ∈ db, r.title = title ∧ r.doc_type = doc_type)
    (hpages : pages ≠ []) :
    getNextAvailableDoctype db title doc_type ≠ doc_type
    ∧ (uploadFileToMongodb db fs file_path doc_type title ".pdf" (.ok pages)).ok = true
    ∧ (uploadFileToMongodb db fs file_path doc_type title ".pdf" (.ok pages)).db
        = db ++ pages.map (fun item =>
            { title := title, name := file_path, page_no := item.page_no,
              content := item.content,
              doc_type := getNextAvailableDoctype db title doc_type,
              original_filename := item.original_filename.getD file_path })
    ∧ (uploadFileToMongodb db fs file_path doc_type title ".pdf" (.ok pages)).db.length
        = db.length + pages.length := by
  obtain ⟨M, hM⟩ := getNextAvailableDoctype_of_base_present db title doc_type hexists
  have hne : getNextAvailableDoctype db title doc_type ≠ doc_type := by
    rw [hM]
    exact append_natToString_ne _ _
  have hfilter : db.filter
      (fun r => !(r.title == title && r.doc_type == getNextAvailableDoctype db title doc_type))
      = db := by
    apply List.filter_eq_self.mpr
    intro r hr
    have hfresh := getNextAvailableDoctype_fresh db title doc_type r hr
    cases hx : (r.title == title && r.doc_type == getNextAvailableDoctype db title doc_type) with
    | false => rfl
    | true =>
      rw [Bool.and_eq_true, beq_iff_eq, beq_iff_eq] at hx
      exact absurd hx hfresh
  have hext : pyLower ".pdf" ∈ supportedUploadExts := by decide
  have hempty : pages.isEmpty = false := by
    rcases pages with _ | ⟨p, ps⟩
    · exact absurd rfl hpages
    · rfl
  refine ⟨hne, ?_, ?_, ?_⟩
  · simp only [uploadFileToMongodb, if_pos hext, hempty, Bool.false_eq_true, if_false]
  · simp only [uploadFileToMongodb, if_pos hext, hempty, Bool.false_eq_true, if_false]
    rw [hfilter]
  · simp only [uploadFileToMongodb, if_pos hext, hempty, Bool.false_eq_true, if_false]
    rw [hfilter, List.length_append, List.length_map]

/-- C1 witness: the amended theorem applied to a store holding one record
under ("t", "spec") and a 1-page re-upload: the store grows from 1 to 2
records. -/
theorem uploadFileToMongodb_reupload_versions_witness :
    (uploadFileToMongodb [sampleRec "t" "spec"] [] "doc.pdf" "spec" "t" ".pdf"
      (.ok [samplePage 1])).db.length = 2 := by
  have h := uploadFileToMongodb_reupload_versions [sampleRec "t" "spec"] [] "doc.pdf"
    "spec" "t" [samplePage 1] (by decide) (by decide)
  simpa using h.2.2.2

/-- Removing a path always leaves a filesystem without that path. -/
theorem not_mem_osRemoveIfExists (fs : List String) (p : String) :
    p ∉ osRemoveIfExists fs p := by
  intro h
  rcases List.mem_filter.mp h with ⟨_, hneq⟩
  simp at hneq

/-- C8: for every file whose (lower-cased) extension is not one of
.pdf/.docx/.doc/.xlsx/.xls/.csv, `upload_file_to_mongodb` reports the
failure to the caller immediately — it returns False — and leaves the
document store untouched (the parser is never consulted and nothing is
retried: the result does not depend on `parsed`). -/
theorem uploadFileToMongodb_unsupported_ext
    (db : List DocRec) (fs : List String) (file_path doc_type title file_ext : String)
    (parsed : Except String (List PageContent))
    (h : pyLower file_ext ∉ supportedUploadExts) :
    (uploadFileToMongodb db fs file_path doc_type title file_ext parsed).ok = false
    ∧ (uploadFileToMongodb db fs file_path doc_type title file_ext parsed).db = db := by
  simp only [uploadFileToMongodb, if_neg h]
  exact ⟨trivial, trivial⟩

/-- C8 witness: a `.txt` upload attempt fails and changes nothing. -/
theorem uploadFileToMongodb_unsupported_ext_witness :
    (uploadFileToMongodb [] [] "notes.txt" "spec" "t" ".txt" (.ok [samplePage 1])).ok = false
    ∧ (uploadFileToMongodb [] [] "notes.txt" "spec" "t" ".txt" (.ok [samplePage 1])).db = [] :=
  uploadFileToMongodb_unsupported_ext [] [] "notes.txt" "spec" "t" ".txt"
    (.ok [samplePage 1]) (by decide)

/-- C10: `upload_file_to_mongodb` removes the input file from the
filesystem on every outcome — success, unsupported extension, parser
failure, empty extraction — because the deletion sits in the `finally`
block; the source file never survives an upload attempt. -/
theorem uploadFileToMongodb_deletes_input_file
    (db : List DocRec) (fs : List String) (file_path doc_type title file_ext : String)
    (parsed : Except String (List PageContent)) :
    file_path ∉ (uploadFileToMongodb db fs file_path doc_type title file_ext parsed).fs := by
  simp only [uploadFileToMongodb]
  split
  · exact not_mem_osRemoveIfExists fs file_path
  · exact not_mem_osRemoveIfExists fs file_path

/-- C10 witness: a failing (unsupported-extension) upload still deletes the
input file. -/
theorem uploadFileToMongodb_deletes_input_file_witness :
    "notes.txt" ∉ (uploadFileToMongodb [] ["notes.txt"] "notes.txt" "spec" "t" ".txt"
      (.ok [])).fs :=
  uploadFileToMongodb_deletes_input_file [] ["notes.txt"] "notes.txt" "spec" "t" ".txt" (.ok [])

/-! ### PDF extraction (`DocumentParser`, document_processor.py)

pdfplumber is the external collaborator: a page is given to the model as
its height, its word items (`page.extract_words(...)` output: bounding box,
text, font name, font size) and its tables (`page.find_tables()` /
`page.extract_tables()`, zipped as the source zips them: bounding box plus
cell rows, cells possibly absent).  Layout coordinates (floats compared and
subtracted only) are modelled as integers. -/

/-- One word item from `page.extract_words(extra_attrs=["fontname", "size"])`. -/
structure WordItem where
  x0 : Int
  top : Int
  x1 : Int
  bottom : Int
  text : String
  fontname : String
  size : Int
deriving DecidableEq

/-- A table bounding box `(x0, top, x1, bottom)` from `page.find_tables()`. -/
structure TableBbox where
  x0 : Int
  y0 : Int
  x1 : Int
  y1 : Int
deriving DecidableEq

/-- One detected table: its bounding box (`find_tables`) zipped with its
extracted cell rows (`extract_tables`). -/
structure PdfTable where
  bbox : TableBbox
  rows : List (List (Option String))
deriving DecidableEq

/-- One pdfplumber page. -/
structure PdfPage where
  height : Int
  words : List WordItem
  tables : List PdfTable
deriving DecidableEq

/-- An entry of `all_text_elements` (document_processor.py lines 190-195). -/
structure TextElem where
  text : String
  page : Nat
  position : Int
  is_heading : Bool
deriving DecidableEq

/-- `DocumentParser.is_meaningful_text` (document_processor.py lines 52-64). -/
def is_meaningful_text (text : String) : Bool :=
  let t := pyStrip text
  if t.data.length < 10 then false          -- too short
  else if pyIsDigitStr t then false         -- just a number
  else if (pyWords t).length < 3 then false -- fewer than 3 words
  else if pyLower t ∈ ["table of contents", "page", "header", "footer"] then false
  else true

def HEADER_FOOTER_MARGIN : Int := 50

/-- Python `max(elems, key=lambda x: x['position'])` guarded by a
non-emptiness test: the first element attaining the maximal position. -/
def argmaxPosition (l : List TextElem) : Option TextElem :=
  match l with
  | [] => none
  | x :: xs => some (xs.foldl (fun b e => if b.position < e.position then e else b) x)

/-- The sort key `lambda x: (x['page'], x['position'])`: lexicographic
comparison used by the stable list sort. -/
def pagePosLe (a b : TextElem) : Bool :=
  decide (a.page < b.page) || ((a.page == b.page) && decide (a.position ≤ b.position))

/-- Python `elems.sort(key=lambda x: (x['page'], x['position']))` (stable). -/
def sortByPagePos (l : List TextElem) : List TextElem :=
  l.mergeSort pagePosLe

/-- `DocumentParser.find_best_feature_for_table`
(document_processor.py lines 66-118). -/
def find_best_feature_for_table (all_text_elements : List TextElem)
    (table_page : Nat) (table_top : Int) : String :=
  -- Strategy 1: heading on the same page above the table
  let same_page_elements := all_text_elements.filter (fun e => e.page == table_page)
  let same_page_headings := same_page_elements.filter
    (fun e => e.is_heading && decide (e.position < table_top))
  match argmaxPosition same_page_headings with
  | some closest_heading => closest_heading.text
  | none =>
    -- Strategy 2: any meaningful text on the same page above the table
    let texts_before_table := same_page_elements.filter
      (fun e => decide (e.position < table_top))
    match argmaxPosition texts_before_table with
    | some closest_text => closest_text.text
    | none =>
      -- Strategy 3: first text on the same page
      match same_page_elements with
      | first_text :: _ => first_text.text
      | [] =>
        -- Strategy 4: most recent text from previous pages
        let previous_pages_elements :=
          all_text_elements.filter (fun e => decide (e.page < table_page))
        match (sortByPagePos previous_pages_elements).getLast? with
        | some most_recent => most_recent.text
        | none =>
          -- Strategy 5: earliest text from subsequent pages
          let subsequent_pages_elements :=
            all_text_elements.filter (fun e => decide (e.page > table_page))
          match (sortByPagePos subsequent_pages_elements).head? with
          | some next_text => next_text.text
          | none => "N/A"

/-- The table-to-feature association exactly as the claim words it: six
ordered fallback steps, each a direct filter of the element list.  This is
the specification-side definition compared against the source embedding
`find_best_feature_for_table`. -/
def featureByOrderedFallback (all_text_elements : List TextElem)
    (table_page : Nat) (table_top : Int) : String :=
  -- (1) the heading on page P with maximum position < T
  match argmaxPosition (all_text_elements.filter
      (fun e => (e.is_heading && decide (e.position < table_top)) && (e.page == table_page))) with
  | some h => h.text
  | none =>
    -- (2) the text element on page P with maximum position < T
    match argmaxPosition (all_text_elements.filter
        (fun e => decide (e.position < table_top) && (e.page == table_page))) with
    | some t => t.text
    | none =>
      -- (3) the first text element on page P
      match (all_text_elements.filter (fun e => e.page == table_page)).head? with
      | some f => f.text
      | none =>
        -- (4) the most recent text element from pages < P by (page, position)
        match (sortByPagePos (all_text_elements.filter
            (fun e => decide (e.page < table_page)))).getLast? with
        | some m => m.text
        | none =>
          -- (5) the earliest text element from pages > P by (page, position)
          match (sortByPagePos (all_text_elements.filter
              (fun e => decide (e.page > table_page)))).head? with
          | some n => n.text
          | none =>
            -- (6) the literal sentinel
            "N/A"

/-- C4: `find_best_feature_for_table` is a pure, deterministic function of
the text-element positions and follows exactly the claimed six-step
priority order — (1) heading on page P with maximum position < T, else
(2) text element on page P with maximum position < T, else (3) first text
element on page P, else (4) most recent text element from pages < P by
(page, position), else (5) earliest text element from pages > P by
(page, position), else (6) the literal "N/A" — never skipping to a global
nearest-neighbour search. -/
theorem find_best_feature_for_table_ordered_fallback
    (all_text_elements : List TextElem) (table_page : Nat) (table_top : Int) :
    find_best_feature_for_table all_text_elements table_page table_top
      = featureByOrderedFallback all_text_elements table_page table_top := by
  simp only [find_best_feature_for_table, featureByOrderedFallback, List.filter_filter]
  cases hsp : all_text_elements.filter (fun e => e.page == table_page) with
  | nil => rfl
  | cons a l => rfl

/-- The skip test of the first pass (document_processor.py lines 176-180):
header/footer bands and words fully inside a detected table region. -/
def skipWord (page_height : Int) (table_bboxes : List TableBbox) (w : WordItem) : Bool :=
  decide (w.top < HEADER_FOOTER_MARGIN)
  || decide (w.bottom > page_height - HEADER_FOOTER_MARGIN)
  || table_bboxes.any (fun t =>
      decide (w.x0 ≥ t.x0) && decide (w.top ≥ t.y0)
      && decide (w.x1 ≤ t.x1) && decide (w.bottom ≤ t.y1))

/-- The heading heuristic applied to a finished paragraph
(document_processor.py lines 186-188 and 209-211). -/
def paragraphIsHeading (current_paragraph : String) (current_words : List WordItem) : Bool :=
  current_words.any (fun w => decide (w.size > 10))
  || current_words.any (fun w => pyContains "bold" (pyLower w.fontname))
  || pyIsUpper current_paragraph

/-- The running state of the paragraph-accumulation loop: the paragraph
being built, its words, the bottom of the previous word, and the global
`all_text_elements` accumulator. -/
structure ParaState where
  current_paragraph : String
  current_words : List WordItem
  prev_bottom : Int
  acc : List TextElem

/-- Flush the current paragraph into `all_text_elements` when it is
non-empty and meaningful (the guarded append of lines 184-196 / 208-218). -/
def flushParagraph (page_num : Nat) (st : ParaState) : List TextElem :=
  if st.current_paragraph != "" && is_meaningful_text st.current_paragraph then
    st.acc ++ [{ text := st.current_paragraph, page := page_num,
                 position := st.prev_bottom,
                 is_heading := paragraphIsHeading st.current_paragraph st.current_words }]
  else st.acc

/-- One iteration of the word loop (document_processor.py lines 172-205). -/
def stepWord (page_num : Nat) (page_height : Int) (table_bboxes : List TableBbox)
    (st : ParaState) (w : WordItem) : ParaState :=
  if skipWord page_height table_bboxes w then st
  else if st.current_paragraph == "" || decide (w.top - st.prev_bottom > 5) then
    { current_paragraph := w.text
      current_words := [w]
      prev_bottom := w.bottom
      acc := flushParagraph page_num st }
  else
    { current_paragraph := st.current_paragraph ++ " " ++ w.text
      current_words := st.current_words ++ [w]
      prev_bottom := w.bottom
      acc := st.acc }

/-- First pass over one page: run the word loop from a fresh paragraph
state and flush the final paragraph (lines 158-221). -/
def firstPassPage (acc : List TextElem) (page_num : Nat) (page : PdfPage) : List TextElem :=
  let table_bboxes := page.tables.map (fun t => t.bbox)
  let st := page.words.foldl (stepWord page_num page.height table_bboxes)
    { current_paragraph := "", current_words := [], prev_bottom := 0, acc := acc }
  flushParagraph page_num st

/-- `pages = pdf.pages[:max_pages] if max_pages else pdf.pages`
(lines 155 and 228).  Note the Python truthiness quirk: `max_pages = 0`
selects all pages. -/
def selectPages (pages : List PdfPage) (max_pages : Option Nat) : List PdfPage :=
  match max_pages with
  | some m => if m = 0 then pages else pages.take m
  | none => pages

/-- The complete first pass: `all_text_elements` accumulated over all
pages, pages numbered from 1 (`enumerate(pages, 1)`). -/
def buildAllTextElements (pages : List PdfPage) : List TextElem :=
  (pages.enum.map (fun p => (p.1 + 1, p.2))).foldl
    (fun acc pg => firstPassPage acc pg.1 pg.2) []

/-- Second pass for one page (lines 230-275): tables first (non-empty ones,
cells string-coerced, feature assigned by `find_best_feature_for_table`),
then the page's text elements; the page is emitted only if it has
elements. -/
def secondPassPage (all_text_elements : List TextElem) (page_num : Nat)
    (page : PdfPage) : Option PageContent :=
  let page_text_elements := all_text_elements.filter (fun e => e.page == page_num)
  let table_elements := page.tables.filterMap (fun t =>
    if !t.rows.isEmpty then
      some (ContentElement.table
        (t.rows.map (fun row => row.map (fun cell => cell.getD "")))
        (find_best_feature_for_table all_text_elements page_num t.bbox.y0))
    else none)
  let elements := table_elements
    ++ page_text_elements.map (fun e => ContentElement.text e.text e.is_heading)
  if !elements.isEmpty then
    some { page_no := page_num, content := elements, original_filename := none }
  else none

/-- `DocumentParser.extract_pdf_content` (document_processor.py lines
120-278): first pass collects meaningful paragraphs across all selected
pages, second pass emits per-page table and text elements. -/
def extract_pdf_content (pages0 : List PdfPage) (max_pages : Option Nat) : List PageContent :=
  let pages := selectPages pages0 max_pages
  let all_text_elements := buildAllTextElements pages
  (pages.enum.map (fun p => (p.1 + 1, p.2))).filterMap
    (fun pg => secondPassPage all_text_elements pg.1 pg.2)

/-! ### The meaningfulness invariant of the first pass (C9) -/

theorem flushParagraph_meaningful (page_num : Nat) (st : ParaState)
    (hacc : ∀ e ∈ st.acc, is_meaningful_text e.text = true) :
    ∀ e ∈ flushParagraph page_num st, is_meaningful_text e.text = true := by
  intro e he
  unfold flushParagraph at he
  split at he
  case isTrue hguard =>
    rcases List.mem_append.mp he with h1 | h1
    · exact hacc e h1
    · rcases List.mem_singleton.mp h1 with rfl
      have hg := hguard
      rw [Bool.and_eq_true] at hg
      exact hg.2
  case isFalse =>
    exact hacc e he

theorem stepWord_acc_meaningful (page_num : Nat) (page_height : Int)
    (table_bboxes : List TableBbox) (st : ParaState) (w : WordItem)
    (hacc : ∀ e ∈ st.acc, is_meaningful_text e.text = true) :
    ∀ e ∈ (stepWord page_num page_height table_bboxes st w).acc,
      is_meaningful_text e.text = true := by
  intro e he
  unfold stepWord at he
  split at he
  · exact hacc e he
  · split at he
    · exact flushParagraph_meaningful page_num st hacc e he
    · exact hacc e he

theorem foldl_stepWord_acc_meaningful (page_num : Nat) (page_height : Int)
    (table_bboxes : List TableBbox) :
    ∀ (ws : List WordItem) (st : ParaState),
      (∀ e ∈ st.acc, is_meaningful_text e.text = true) →
      ∀ e ∈ (ws.foldl (stepWord page_num page_height table_bboxes) st).acc,
        is_meaningful_text e.text = true := by
  intro ws
  induction ws with
  | nil => intro st hacc; exact hacc
  | cons w ws ih =>
    intro st hacc
    exact ih _ (stepWord_acc_meaningful page_num page_height table_bboxes st w hacc)

theorem firstPassPage_meaningful (acc : List TextElem) (page_num : Nat) (page : PdfPage)
    (hacc : ∀ e ∈ acc, is_meaningful_text e.text = true) :
    ∀ e ∈ firstPassPage acc page_num page, is_meaningful_text e.text = true := by
  unfold firstPassPage
  apply flushParagraph_meaningful
  exact foldl_stepWord_acc_meaningful page_num page.height _ page.words _ hacc

theorem buildAllTextElements_meaningful (pages : List PdfPage) :
    ∀ e ∈ buildAllTextElements pages, is_meaningful_text e.text = true := by
  unfold buildAllTextElements
  have H : ∀ (l : List (Nat × PdfPage)) (acc : List TextElem),
      (∀ e ∈ acc, is_meaningful_text e.text = true) →
      ∀ e ∈ l.foldl (fun acc pg => firstPassPage acc pg.1 pg.2) acc,
        is_meaningful_text e.text = true := by
    intro l
    induction l with
    | nil => intro acc hacc; exact hacc
    | cons pg l ih =>
      intro acc hacc
      exact ih _ (firstPassPage_meaningful acc pg.1 pg.2 hacc)
  exact H _ [] (by intro e he; simp at he)

/-- C9: every text `ContentElement` emitted by PDF extraction passes
`is_meaningful_text` — after stripping it is at least 10 characters, has
at least 3 whitespace-separated words, is not all digits and is not one of
the blacklisted strings; paragraphs failing the filter are silently
dropped by the first pass and never appear in the output. -/
theorem extract_pdf_content_text_meaningful
    (pages0 : List PdfPage) (max_pages : Option Nat) (pc : PageContent)
    (hpc : pc ∈ extract_pdf_content pages0 max_pages)
    (el : ContentElement) (hel : el ∈ pc.content)
    (s : String) (h : Bool) (heq : el = ContentElement.text s h) :
    is_meaningful_text s = true := by
  subst heq
  unfold extract_pdf_content at hpc
  rcases List.mem_filterMap.mp hpc with ⟨pg, _, hsome⟩
  simp only [secondPassPage] at hsome
  split at hsome
  case isFalse => exact absurd hsome (by simp)
  case isTrue =>
    rcases Option.some_injective _ hsome with rfl
    rcases List.mem_append.mp hel with h1 | h1
    · -- a table element cannot be a text element
      rcases List.mem_filterMap.mp h1 with ⟨t, _, ht⟩
      split at ht
      · exact absurd (Option.some_injective _ ht) (by simp)
      · exact absurd ht (by simp)
    · rcases List.mem_map.mp h1 with ⟨e, he, heq2⟩
      have hmem : e ∈ buildAllTextElements (selectPages pages0 max_pages) :=
        List.mem_of_mem_filter he
      have := buildAllTextElements_meaningful _ e hmem
      cases heq2
      exact this

/-- Three word items forming one paragraph on a tall page, outside the
header/footer bands. -/
def sampleWord (x : Int) (t : String) : WordItem :=
  { x0 := x, top := 100, x1 := x + 40, bottom := 110, text := t,
    fontname := "Arial", size := 10 }

/-- A one-page PDF whose only paragraph is "Voltage settings overview". -/
def samplePdfPage : PdfPage :=
  { height := 1000,
    words := [sampleWord 0 "Voltage", sampleWord 50 "settings", sampleWord 100 "overview"],
    tables := [] }

/-- The page record extracted from `samplePdfPage`. -/
def samplePdfPageOut : PageContent :=
  { page_no := 1,
    content := [ContentElement.text "Voltage settings overview" false],
    original_filename := none }

/-- C9 witness: the invariant theorem applied to the concrete one-page
extraction above. -/
theorem extract_pdf_content_text_meaningful_witness :
    is_meaningful_text "Voltage settings overview" = true :=
  extract_pdf_content_text_meaningful [samplePdfPage] none samplePdfPageOut
    (by decide) (ContentElement.text "Voltage settings overview" false) (by decide)
    "Voltage settings overview" false rfl

/-! ### Chunked index store (`update_vector_index` persist path,
`load_all_faiss_indexes` / `_load_faiss_index` load paths)

A row of the `vector_indices` collection.  `index_chunk` is the byte
payload (bytes as naturals); `serialize_to_bytes` / `deserialize_from_bytes`
are external FAISS collaborators, so persistence is modelled from the
serialized blob on, and loading returns the reassembled blob. -/
structure IndexChunkRec where
  name : String
  chunk_number : Nat
  total_chunks : Nat
  index_chunk : List Nat
  doc_type : String
  title : String
deriving DecidableEq

def MAX_CHUNK_SIZE : Nat := 15 * 1024 * 1024

/-- The chunk records inserted by `update_vector_index` (mongo_db.py lines
262-280): the serialized index is sliced into `MAX_CHUNK_SIZE`-byte chunks
and inserted with `chunk_number = i` in enumeration order (the
`last_updated` timestamp is environment-supplied and omitted). -/
def updateVectorIndexChunks (name doc_type title : String)
    (index_bytes : List Nat) : List IndexChunkRec :=
  let chunks := chunksOf MAX_CHUNK_SIZE index_bytes
  chunks.enum.map (fun ic =>
    { name := name, chunk_number := ic.1, total_chunks := chunks.length,
      index_chunk := ic.2, doc_type := doc_type, title := title })

/-- The Mongo cursor `.sort("chunk_number", 1)`: ascending, stable. -/
def sortChunksByNumber (l : List IndexChunkRec) : List IndexChunkRec :=
  l.mergeSort (fun a b => a.chunk_number ≤ b.chunk_number)

/-- The load path shared by information_retrieval.py line 98-100 and
test_case_generation.py lines 921-925: sort the fetched chunks by
`chunk_number` and concatenate the payloads. -/
def loadChunksBytes (l : List IndexChunkRec) : List Nat :=
  ((sortChunksByNumber l).map (fun r => r.index_chunk)).flatten

/-- `InformationRetrievalProcessor.load_all_faiss_indexes`
(information_retrieval.py lines 67-115), up to external deserialization:
the distinct index names are collected, an empty set raises ValueError
("No FAISS indexes found in database"), and otherwise each name's chunk
set is reassembled. -/
def load_all_faiss_indexes (store : List IndexChunkRec) :
    Except String (List (List Nat)) :=
  let index_names := (store.map (fun r => r.name)).eraseDups
  if index_names.isEmpty then
    .error "No FAISS indexes found in database"
  else
    .ok (index_names.map (fun n => loadChunksBytes (store.filter (fun r => r.name == n))))

/-- `TestCaseGenerator._load_faiss_index` (test_case_generation.py lines
919-930): chunks are fetched by title; an empty result raises ValueError
("No FAISS index found in database"). -/
def load_faiss_index_for_title (store : List IndexChunkRec) (product_title : String) :
    Except String (List Nat) :=
  let chunks := sortChunksByNumber (store.filter (fun r => r.title == product_title))
  if chunks.isEmpty then
    .error "No FAISS index found in database"
  else
    .ok ((chunks.map (fun r => r.index_chunk)).flatten)

/-- Strict ascending order on chunk numbers. -/
def chunkNumLt (a b : IndexChunkRec) : Prop := a.chunk_number < b.chunk_number

instance : IsAntisymm IndexChunkRec chunkNumLt :=
  ⟨fun _ _ h1 h2 => absurd h2 (Nat.lt_asymm h1)⟩

theorem updateVectorIndexChunks_sorted (name doc_type title : String)
    (index_bytes : List Nat) :
    List.Pairwise chunkNumLt (updateVectorIndexChunks name doc_type title index_bytes) := by
  unfold updateVectorIndexChunks
  rw [List.pairwise_map]
  apply List.pairwise_iff_getElem.mpr
  intro i j hi hj hij
  rw [List.getElem_enum, List.getElem_enum]
  exact hij

theorem updateVectorIndexChunks_map_payload (name doc_type title : String)
    (index_bytes : List Nat) :
    (updateVectorIndexChunks name doc_type title index_bytes).map (fun r => r.index_chunk)
      = chunksOf MAX_CHUNK_SIZE index_bytes := by
  unfold updateVectorIndexChunks
  rw [List.map_map]
  exact List.enum_map_snd _

/-- C3: the chunk store round-trips every byte blob.  Splitting a blob `B`
into `MAX_CHUNK_SIZE`-sized chunks as `update_vector_index` does and then,
from any rearrangement of the stored records, sorting by `chunk_number`
ascending and concatenating the payloads as the load paths do, reproduces
`B` exactly; and every stored chunk payload holds at most
`MAX_CHUNK_SIZE` bytes. -/
theorem chunked_index_roundtrip (index_bytes : List Nat) (name doc_type title : String)
    (stored : List IndexChunkRec)
    (hperm : stored.Perm (updateVectorIndexChunks name doc_type title index_bytes)) :
    loadChunksBytes stored = index_bytes
    ∧ ∀ r ∈ stored, r.index_chunk.length ≤ MAX_CHUNK_SIZE := by
  have hMAX : 0 < MAX_CHUNK_SIZE := by norm_num [MAX_CHUNK_SIZE]
  have hrecs_sorted := updateVectorIndexChunks_sorted name doc_type title index_bytes
  have hperm2 : (sortChunksByNumber stored).Perm
      (updateVectorIndexChunks name doc_type title index_bytes) :=
    (List.mergeSort_perm stored _).trans hperm
  have hsort_le : List.Pairwise
      (fun a b : IndexChunkRec => a.chunk_number ≤ b.chunk_number)
      (sortChunksByNumber stored) := by
    have := @List.sorted_mergeSort IndexChunkRec
      (fun a b : IndexChunkRec => a.chunk_number ≤ b.chunk_number)
      (fun a b c hab hbc => by
        simp only [decide_eq_true_eq] at *
        omega)
      (fun a b => by
        simp only [Bool.or_eq_true, decide_eq_true_eq]
        omega)
      stored
    exact this.imp (fun h => by simpa using h)
  have hsort_ne : List.Pairwise
      (fun a b : IndexChunkRec => a.chunk_number ≠ b.chunk_number)
      (sortChunksByNumber stored) := by
    have hne : List.Pairwise
        (fun a b : IndexChunkRec => a.chunk_number ≠ b.chunk_number)
        (updateVectorIndexChunks name doc_type title index_bytes) :=
      hrecs_sorted.imp (fun h => Nat.ne_of_lt h)
    exact (hperm2.pairwise_iff (fun h => (Ne.symm h))).mpr hne
  have hsort_lt : List.Pairwise chunkNumLt (sortChunksByNumber stored) :=
    (hsort_le.and hsort_ne).imp (fun ⟨h1, h2⟩ => Nat.lt_of_le_of_ne h1 h2)
  have heq : sortChunksByNumber stored
      = updateVectorIndexChunks name doc_type title index_bytes :=
    List.eq_of_perm_of_sorted hperm2 hsort_lt hrecs_sorted
  constructor
  · unfold loadChunksBytes
    rw [heq, updateVectorIndexChunks_map_payload]
    exact chunksOf_flatten _ hMAX _
  · intro r hr
    have hr2 : r ∈ updateVectorIndexChunks name doc_type title index_bytes :=
      hperm.mem_iff.mp hr
    have : r.index_chunk ∈ (updateVectorIndexChunks name doc_type title index_bytes).map
        (fun r => r.index_chunk) := List.mem_map_of_mem _ hr2
    rw [updateVectorIndexChunks_map_payload] at this
    exact chunksOf_mem_length_le _ _ _ this

/-- C3 witness: the round-trip theorem applied to a concrete 3-byte blob
stored as one chunk. -/
theorem chunked_index_roundtrip_witness :
    loadChunksBytes (updateVectorIndexChunks "idx" "spec" "t" [7, 8, 9]) = [7, 8, 9] :=
  (chunked_index_roundtrip [7, 8, 9] "idx" "spec" "t" _ (List.Perm.refl _)).1

/-- C7: loading fails loudly, not silently, when nothing is stored:
`load_all_faiss_indexes` returns the ValueError "No FAISS indexes found in
database" when no index names exist in the store, and `_load_faiss_index`
returns the ValueError "No FAISS index found in database" when no chunks
match the requested title — neither ever yields an empty index. -/
theorem load_faiss_zero_chunks_raises (store : List IndexChunkRec) (product_title : String) :
    ((store.map (fun r => r.name)).eraseDups = [] →
      load_all_faiss_indexes store = .error "No FAISS indexes found in database")
    ∧ (store.filter (fun r => r.title == product_title) = [] →
      load_faiss_index_for_title store product_title
        = .error "No FAISS index found in database") := by
  constructor
  · intro h
    simp only [load_all_faiss_indexes, h]
    rfl
  · intro h
    simp only [load_faiss_index_for_title, h, sortChunksByNumber, List.mergeSort_nil]
    rfl

/-- C7 witness: both loaders fail on an empty chunk store. -/
theorem load_faiss_zero_chunks_raises_witness :
    load_all_faiss_indexes [] = .error "No FAISS indexes found in database"
    ∧ load_faiss_index_for_title [] "t" = .error "No FAISS index found in database" :=
  ⟨(load_faiss_zero_chunks_raises [] "t").1 rfl,
   (load_faiss_zero_chunks_raises [] "t").2 rfl⟩

/-! ### Hybrid retriever (`load_hybrid_retriever`, information_retrieval.py
lines 117-174) -/

/-- The retriever configuration constructed by `load_hybrid_retriever`:
`search_kwargs={"k": 25}` for the vector retriever, `bm25_retriever.k = 25`,
and `EnsembleRetriever(..., weights=[0.4, 0.6])` with the BM25 retriever
listed first.  The float weights 0.4 and 0.6 are the exact rationals
2/5 and 3/5. -/
structure HybridRetrieverConfig where
  bm25_k : Nat
  vector_k : Nat
  bm25_weight : ℚ
  vector_weight : ℚ
deriving DecidableEq

def load_hybrid_retriever_config : HybridRetrieverConfig :=
  { bm25_k := 25, vector_k := 25, bm25_weight := 2 / 5, vector_weight := 3 / 5 }

/-- Modelled from the spec: the ensemble scoring rule lives inside the
external langchain `EnsembleRetriever`, which is not part of this
repository.  The spec (§4.5) leaves the exact rule an implementation
choice, naming weighted reciprocal-rank fusion as the canonical one; this
is the rule modelled here: a document at 1-based rank `r` in a retriever's
ranked list contributes `weight / (r + 60)` (60 being the standard
reciprocal-rank-fusion smoothing constant), and documents absent from a
list contribute nothing from it. -/
def rrfContribution (w : ℚ) (ranked : List String) (d : String) : ℚ :=
  if d ∈ ranked then w / ((ranked.indexOf d : ℚ) + 1 + 60) else 0

/-- Modelled from the spec: the combined ensemble score of a document under
the weights of `load_hybrid_retriever`. -/
def ensembleScore (lex vec : List String) (d : String) : ℚ :=
  rrfContribution load_hybrid_retriever_config.bm25_weight lex d
  + rrfContribution load_hybrid_retriever_config.vector_weight vec d

theorem rrfContribution_head (w : ℚ) (D : String) (t : List String) :
    rrfContribution w (D :: t) D = w / 61 := by
  unfold rrfContribution
  rw [if_pos (List.mem_cons_self D t), List.indexOf_cons_self]
  norm_num

theorem rrfContribution_rest_le (w : ℚ) (hw : 0 ≤ w) (D d : String) (t : List String)
    (hne : d ≠ D) :
    rrfContribution w (D :: t) d ≤ w / 62 := by
  unfold rrfContribution
  split
  · rw [List.indexOf_cons_ne t (Ne.symm hne)]
    apply div_le_div_of_nonneg_left hw (by norm_num)
    have h1 : (1 : ℚ) ≤ ((t.indexOf d).succ : ℚ) := by exact_mod_cast Nat.succ_le_succ (Nat.zero_le _)
    push_cast at h1 ⊢
    linarith
  · positivity

/-- C5: the hybrid retriever takes the lexical (BM25) and the dense vector
retriever each at its own top-k with k = 25 for both, merges them with the
fixed weights 0.4 (lexical) and 0.6 (vector), and — under the weighted
reciprocal-rank ensemble modelled from the spec — a document ranked #1 by
both retrievers strictly outranks every other document in the combined
output, in particular any document ranked top by only one retriever. -/
theorem hybrid_retriever_config_and_top1 :
    load_hybrid_retriever_config.bm25_k = 25
    ∧ load_hybrid_retriever_config.vector_k = 25
    ∧ load_hybrid_retriever_config.bm25_weight = 2 / 5
    ∧ load_hybrid_retriever_config.vector_weight = 3 / 5
    ∧ ∀ (lex vec : List String) (D d : String),
        lex.head? = some D → vec.head? = some D → d ≠ D →
        ensembleScore lex vec d < ensembleScore lex vec D := by
  refine ⟨rfl, rfl, rfl, rfl, ?_⟩
  intro lex vec D d hlex hvec hne
  obtain ⟨lt, rfl⟩ : ∃ t, lex = D :: t := by
    cases lex with
    | nil => simp at hlex
    | cons a t =>
      have ha : a = D := by simpa using hlex
      exact ⟨t, by rw [ha]⟩
  obtain ⟨vt, rfl⟩ : ∃ t, vec = D :: t := by
    cases vec with
    | nil => simp at hvec
    | cons a t =>
      have ha : a = D := by simpa using hvec
      exact ⟨t, by rw [ha]⟩
  unfold ensembleScore
  rw [rrfContribution_head, rrfContribution_head]
  have h1 := rrfContribution_rest_le ((2 : ℚ) / 5) (by norm_num) D d lt hne
  have h2 := rrfContribution_rest_le ((3 : ℚ) / 5) (by norm_num) D d vt hne
  have hval : load_hybrid_retriever_config.bm25_weight = 2 / 5 := rfl
  have hval2 : load_hybrid_retriever_config.vector_weight = 3 / 5 := rfl
  rw [hval, hval2]
  have hlt : (2 : ℚ) / 5 / 62 + (3 : ℚ) / 5 / 62 < 2 / 5 / 61 + 3 / 5 / 61 := by norm_num
  linarith

/-- C5 witness: a two-document corpus where "alpha" is ranked #1 by both
retrievers and "beta" appears in each list as well: "alpha" strictly
outranks "beta" in the ensemble. -/
theorem hybrid_retriever_config_and_top1_witness :
    ensembleScore ["alpha", "beta"] ["alpha", "beta"] "beta"
      < ensembleScore ["alpha", "beta"] ["alpha", "beta"] "alpha" :=
  hybrid_retriever_config_and_top1.2.2.2.2 ["alpha", "beta"] ["alpha", "beta"]
    "alpha" "beta" rfl rfl (by decide)

/-! ### Embedding batch sizing (`process_documents_parallel`, mongo_db.py
lines 140-177)

Only the batch construction (lines 165-174) is data-flow logic; the
thread-pool submission, retry loop and FAISS merging act on external
services.  Documents are their `page_content` strings; `tok` is the
external tiktoken `count_tokens` collaborator. -/

def TARGET_TOKENS_PER_BATCH : Nat := 8000

/-- Lines 166-171: average tokens per document (`0` for an empty corpus,
from the guarded conditional) and the clamped dynamic batch size.  Python
`int()` on the positive float ratio is the floor. -/
def dynamic_batch_size (tok : String → Nat) (documents : List String) : Nat :=
  let doc_tokens := documents.map tok
  let total_tokens := doc_tokens.sum
  let avg_tokens : ℚ :=
    if documents.isEmpty then 0 else (total_tokens : ℚ) / (documents.length : ℚ)
  if avg_tokens ≠ 0 then
    max 1 (min 100 (⌊(TARGET_TOKENS_PER_BATCH : ℚ) / avg_tokens⌋).toNat)
  else 50

/-- Lines 173-174: `[documents[i:i + dynamic_batch_size] for i in
range(0, len(documents), dynamic_batch_size)]`. -/
def process_documents_parallel_batches (tok : String → Nat)
    (documents : List String) : List (List String) :=
  chunksOf (dynamic_batch_size tok documents) documents

theorem dynamic_batch_size_uniform (tok : String → Nat) (documents : List String)
    (T : Nat) (hne : documents ≠ []) (hT : 0 < T)
    (huniform : ∀ d ∈ documents, tok d = T) :
    dynamic_batch_size tok documents = max 1 (min 100 (TARGET_TOKENS_PER_BATCH / T)) := by
  have hempty : documents.isEmpty = false := by
    cases documents with
    | nil => exact absurd rfl hne
    | cons a l => rfl
  have hlenpos : 0 < documents.length := List.length_pos.mpr hne
  have hmap : documents.map tok = List.replicate documents.length T :=
    (List.map_congr_left huniform).trans (List.map_const' documents T)
  have hsum : (documents.map tok).sum = documents.length * T := by
    rw [hmap, List.sum_replicate, smul_eq_mul]
  have havg : (((documents.map tok).sum : ℚ) / (documents.length : ℚ)) = (T : ℚ) := by
    rw [hsum]
    push_cast
    rw [mul_comm, mul_div_assoc, div_self (by exact_mod_cast hlenpos.ne'), mul_one]
  have hTne : (T : ℚ) ≠ 0 := Nat.cast_ne_zero.mpr (by omega)
  have hfloor : (⌊(TARGET_TOKENS_PER_BATCH : ℚ) / (T : ℚ)⌋).toNat
      = TARGET_TOKENS_PER_BATCH / T := by
    rw [Int.floor_toNat, Nat.floor_div_nat, Nat.floor_natCast]
  simp only [dynamic_batch_size, hempty, Bool.false_eq_true, if_false, havg, hfloor,
    if_pos hTne]

/-- C6: index building slices the document list into consecutive batches of
size `clamp(1, 100, TARGET_TOKENS_PER_BATCH / avg_tokens_per_doc)`; for a
non-empty corpus where every document has exactly `T > 0` tokens, the
batch size is `clamp(1, 100, TARGET_TOKENS_PER_BATCH / T)` and every batch
has exactly that many documents except possibly the last, which only ever
has fewer (never more, never zero). -/
theorem process_documents_parallel_batches_uniform (tok : String → Nat)
    (documents : List String) (T : Nat)
    (hne : documents ≠ []) (hT : 0 < T)
    (huniform : ∀ d ∈ documents, tok d = T) :
    process_documents_parallel_batches tok documents
      = chunksOf (max 1 (min 100 (TARGET_TOKENS_PER_BATCH / T))) documents
    ∧ (∀ b ∈ (process_documents_parallel_batches tok documents).dropLast,
        b.length = max 1 (min 100 (TARGET_TOKENS_PER_BATCH / T)))
    ∧ (∀ b ∈ process_documents_parallel_batches tok documents,
        b.length ≤ max 1 (min 100 (TARGET_TOKENS_PER_BATCH / T)) ∧ b ≠ []) := by
  have hsize := dynamic_batch_size_uniform tok documents T hne hT huniform
  have hpos : 0 < max 1 (min 100 (TARGET_TOKENS_PER_BATCH / T)) :=
    Nat.lt_of_lt_of_le Nat.zero_lt_one (Nat.le_max_left _ _)
  have hbatches : process_documents_parallel_batches tok documents
      = chunksOf (max 1 (min 100 (TARGET_TOKENS_PER_BATCH / T))) documents := by
    unfold process_documents_parallel_batches
    rw [hsize]
  refine ⟨hbatches, ?_, ?_⟩
  · rw [hbatches]
    exact chunksOf_dropLast_length _ hpos documents
  · rw [hbatches]
    intro b hb
    exact ⟨chunksOf_mem_length_le _ documents b hb,
      chunksOf_mem_ne_nil _ hpos documents b hb⟩

/-- C6 witness: four 100-token documents with an 8000-token target give a
single batch of 4 ≤ clamp(1,100,80) documents. -/
theorem process_documents_parallel_batches_uniform_witness :
    process_documents_parallel_batches (fun _ => 100) ["a", "b", "c", "d"]
      = chunksOf (max 1 (min 100 (TARGET_TOKENS_PER_BATCH / 100))) ["a", "b", "c", "d"] :=
  (process_documents_parallel_batches_uniform (fun _ => 100) ["a", "b", "c", "d"] 100
    (by decide) (by decide) (by intro d _; rfl)).1
